import Mathlib

/-!
Verification of the SQL join-relationship analyzer
(`lib/sql_join_analyzer.py`, class `SQLJoinAnalyzer`).

The development shallowly embeds the analyzer's data model and extraction
pipeline.  The external SQL parser (sqlglot) is out of scope: a parsed
statement is modelled directly as a `SelectStmt` value (`none` models a
statement the parser rejects), mirroring the AST shapes the Python code
inspects (`From`/`Join`/`Where`/`Column`/`EQ`/`And`/`Or`/`Not` nodes,
table aliases, `USING` column lists, the `NATURAL` join marker).
Statements without nested subqueries are modelled; none of the verified
properties concern subquery descent.

String primitives (`endswith`, `startswith`, substring membership `in`)
are implemented over `List Char` so that every definition evaluates by
kernel reduction.
-/

/-! ### String primitives (Python `startswith` / `endswith` / `in`) -/

/-- `charsLead pat s` is true when `pat` is an initial segment of `s`. -/
def charsLead : List Char → List Char → Bool
  | [], _ => true
  | _ :: _, [] => false
  | a :: as, b :: bs => a == b && charsLead as bs

/-- `charsOccur pat s` is true when `pat` occurs contiguously inside `s`
(Python's `pat in s` on strings). -/
def charsOccur : List Char → List Char → Bool
  | pat, [] => pat.isEmpty
  | pat, c :: rest => charsLead pat (c :: rest) || charsOccur pat rest

/-- Python `pat in s` for strings. -/
def strOccursIn (pat s : String) : Bool :=
  charsOccur pat.data s.data

/-- Python `s.startswith(pre)`. -/
def strStartsWith (s pre : String) : Bool :=
  charsLead pre.data s.data

/-- Python `s.endswith(suf)`. -/
def strEndsWith (s suf : String) : Bool :=
  charsLead suf.data.reverse s.data.reverse

/-- Python truthiness of an optional string (`None` and `""` are falsy). -/
def optTruthy : Option String → Bool
  | some s => !(s = "")
  | none => false

/-- `concatMap` over lists (kept local so every definition reduces). -/
def concatMap (f : α → List β) : List α → List β
  | [] => []
  | x :: xs => f x ++ concatMap f xs

/-! ### AST model (shapes of the sqlglot nodes the analyzer inspects) -/

/-- One side of a comparison: a column reference with an optional table
qualifier (sqlglot `Column`, `.table` empty when unqualified), or any
non-column expression (literal, function call, ...). -/
inductive SqlExpr where
  | col (table : Option String) (name : String)
  | lit (val : String)
deriving DecidableEq, Repr

/-- A boolean condition tree as walked by `_extract_equality_conditions`:
`EQ`, `And`, `Or`, `Not` nodes, and any other expression kind holding a
list of nested argument expressions (the `args` the generic branch
recurses into, e.g. a `Paren` wrapper). -/
inductive CondNode where
  | eq (l r : SqlExpr)
  | and (l r : CondNode)
  | or (l r : CondNode)
  | not (c : CondNode)
  | node (cs : List CondNode)
deriving Repr

/-- A table reference in FROM/JOIN position: underlying table name (absent
when `_get_table_name` finds none) and optional alias. -/
structure TableRef where
  name : Option String
  aliasName : Option String
deriving DecidableEq, Repr

/-- One JOIN clause: joined table, optional `ON` condition (`args['on']`),
optional `USING` column list (`args['using']`), and the join kind string
(`args['kind']`, e.g. `"NATURAL"`). -/
structure JoinClause where
  table : TableRef
  onCond : Option CondNode
  usingCols : Option (List String)
  kind : Option String
deriving Repr

/-- A parsed SELECT statement as far as the analyzer looks at it:
FROM target, JOIN list, WHERE condition. -/
structure SelectStmt where
  fromTable : Option TableRef
  joins : List JoinClause
  whereCond : Option CondNode
deriving Repr

/-! ### Alias map (`self.alias_to_table`) -/

/-- Python dict lookup on the alias map (later insertions are consed in
front, so the first hit is the most recent assignment). -/
def lookupStr : List (String × String) → String → Option String
  | [], _ => none
  | (k, v) :: m, t => if k = t then some v else lookupStr m t

/-- Resolve a name through the alias map; names not present map to
themselves (`_get_table_name` / `_get_column_table` tail logic). -/
def resolveAlias (am : List (String × String)) (t : String) : String :=
  match lookupStr am t with
  | some v => v
  | none => t

/-- `_get_column_table`: table qualifier of a column, alias-resolved;
`none` when the column has no (truthy) qualifier. -/
def get_column_table (am : List (String × String)) : Option String → Option String
  | some t => if t = "" then none else some (resolveAlias am t)
  | none => none

/-- `_extract_alias_from_table_node`: a table with an alias maps
alias → name, an unaliased table maps name → itself. -/
def addAliasEntry (m : List (String × String)) (tr : TableRef) : List (String × String) :=
  match tr.name with
  | some n =>
    if n = "" then m
    else
      match tr.aliasName with
      | some al => if al = "" then (n, n) :: m else (al, n) :: m
      | none => (n, n) :: m
  | none => m

/-- The table references `_extract_table_aliases` visits: the FROM target
then every JOIN target. -/
def tableRefsOf (stmt : SelectStmt) : List TableRef :=
  (match stmt.fromTable with
   | some t => [t]
   | none => []) ++ stmt.joins.map (fun j => j.table)

/-- `_extract_table_aliases`: fold the statement's table references into
the alias map. -/
def build_alias_map (stmt : SelectStmt) (m : List (String × String)) : List (String × String) :=
  (tableRefsOf stmt).foldl addAliasEntry m

/-- `_get_table_name`: name of a FROM/JOIN target, alias-resolved.
An empty name is returned unresolved (Python only resolves truthy names). -/
def get_table_name (am : List (String × String)) : Option TableRef → Option String
  | some t =>
    match t.name with
    | some n => if n = "" then some "" else some (resolveAlias am n)
    | none => none
  | none => none

/-! ### Column type inference (`_infer_column_type`) -/

/-- `_infer_column_type`, translated clause by clause from the source. -/
def infer_column_type (c : String) : String :=
  if c = "" ∨ c = "NATURAL" then "UNKNOWN"
  else if strEndsWith c "_id" || c = "id" then
    (if c = "id" then "INT PRIMARY KEY" else "INT FOREIGN KEY")
  else if strEndsWith c "_at" || strEndsWith c "_time" then "DATETIME"
  else if strEndsWith c "_date" then "DATE"
  else if strEndsWith c "_count" || strEndsWith c "_num" then "INT"
  else if strEndsWith c "_flag" || strStartsWith c "is_" then "BOOLEAN"
  else "VARCHAR(255)"

/-! ### Relationship store and graph -/

/-- One relationship record as built by `_add_relationship`. -/
structure Relationship where
  table1 : Option String
  column1 : String
  column_definition1 : String
  table2 : Option String
  column2 : String
  column_definition2 : String
deriving DecidableEq, Repr

/-- Build the record `_add_relationship` appends. -/
def mkRelationship (t1 : Option String) (c1 : String) (t2 : Option String) (c2 : String) :
    Relationship :=
  { table1 := t1
    column1 := c1
    column_definition1 := infer_column_type c1
    table2 := t2
    column2 := c2
    column_definition2 := infer_column_type c2 }

/-- A directed graph edge with its accumulated `columns` label. -/
structure Edge where
  src : String
  dst : String
  columns : String
deriving DecidableEq, Repr

/-- The mutable analyzer instance state (`self.relationships`,
`self.tables`, `self.graph`, `self.alias_to_table`). -/
structure Analyzer where
  relationships : List Relationship
  tables : List String
  edges : List Edge
  aliasToTable : List (String × String)
deriving Repr

/-- A freshly constructed `SQLJoinAnalyzer()`. -/
def emptyAnalyzer : Analyzer :=
  { relationships := [], tables := [], edges := [], aliasToTable := [] }

/-- The `"col1 -> col2"` edge label. -/
def edgeLabel (c1 c2 : String) : String :=
  c1 ++ " -> " ++ c2

/-- Label update for an existing edge: append with `"; "` when the new
label is nonempty-existing and not a substring, otherwise overwrite with
the new label (the `if existing_columns and new_relationship not in
existing_columns` branch of `_add_relationship`). -/
def combineLabel (existing lbl : String) : String :=
  if !(existing = "") && !(strOccursIn lbl existing) then existing ++ "; " ++ lbl
  else lbl

/-- Graph update of `_add_relationship`: update the `(t1, t2)` edge label
when present, otherwise create the edge. -/
def updateEdges (es : List Edge) (t1 t2 c1 c2 : String) : List Edge :=
  if es.any (fun e => e.src = t1 ∧ e.dst = t2) then
    es.map (fun e =>
      if e.src = t1 ∧ e.dst = t2 then { e with columns := combineLabel e.columns (edgeLabel c1 c2) }
      else e)
  else es ++ [{ src := t1, dst := t2, columns := edgeLabel c1 c2 }]

/-- Set-insert into `self.tables`. -/
def addTableName (ts : List String) (t : String) : List String :=
  if t ∈ ts then ts else ts ++ [t]

/-- `_add_relationship`: append the record unless an identical record is
already stored; update graph and table set only when both table names are
truthy. -/
def add_relationship (a : Analyzer) (t1 : Option String) (c1 : String)
    (t2 : Option String) (c2 : String) : Analyzer :=
  let rel := mkRelationship t1 c1 t2 c2
  let rels := if rel ∈ a.relationships then a.relationships else a.relationships ++ [rel]
  if optTruthy t1 && optTruthy t2 then
    { relationships := rels
      tables := addTableName (addTableName a.tables (t1.getD "")) (t2.getD "")
      edges := updateEdges a.edges (t1.getD "") (t2.getD "") c1 c2
      aliasToTable := a.aliasToTable }
  else
    { a with relationships := rels }

/-- Label of the `(t1, t2)` edge, when that edge exists. -/
def edgeColumns (a : Analyzer) (t1 t2 : String) : Option String :=
  (a.edges.find? (fun e => e.src = t1 ∧ e.dst = t2)).map (fun e => e.columns)

/-- Node set of the relationship graph (every edge endpoint). -/
def nodeNames (a : Analyzer) : List String :=
  concatMap (fun e => [e.src, e.dst]) a.edges

/-! ### JOIN ON extraction (`_extract_equality_conditions`) -/

mutual
/-- `_extract_equality_conditions`: recursive boolean decomposition of a
JOIN ON predicate.  `EQ` between two columns that resolve to two distinct
truthy tables adds one relationship; `And` recurses into both branches;
`Or`/`Not` are skipped; any other node recurses into its argument list. -/
def extract_equality_conditions (a : Analyzer) : CondNode → Analyzer
  | .eq l r =>
    (match l, r with
     | .col lt lc, .col rt rc =>
       (match get_column_table a.aliasToTable lt, get_column_table a.aliasToTable rt with
        | some t1, some t2 =>
          if t1 ≠ "" ∧ t2 ≠ "" ∧ t1 ≠ t2 then
            add_relationship a (some t1) lc (some t2) rc
          else a
        | _, _ => a)
     | _, _ => a)
  | .and l r => extract_equality_conditions (extract_equality_conditions a l) r
  | .or _ _ => a
  | .not _ => a
  | .node cs => extract_equality_conditions_list a cs

/-- The generic-argument recursion of `_extract_equality_conditions`
(the final `elif` that walks `node.args`). -/
def extract_equality_conditions_list (a : Analyzer) : List CondNode → Analyzer
  | [] => a
  | c :: cs => extract_equality_conditions_list (extract_equality_conditions a c) cs
end

/-! ### USING / NATURAL / join dispatch -/

/-- The left table passed to `_process_using_clause`:
`left_table or "LEFT_TABLE"`. -/
def leftTableOr (lt : Option String) : String :=
  match lt with
  | some s => if s = "" then "LEFT_TABLE" else s
  | none => "LEFT_TABLE"

/-- `_process_using_clause`: one same-named relationship per truthy column
in the USING list. -/
def process_using_clause (a : Analyzer) (cols : List String)
    (rightTable leftTable : Option String) : Analyzer :=
  cols.foldl
    (fun acc c =>
      if c = "" then acc
      else add_relationship acc (some (leftTableOr leftTable)) c rightTable c)
    a

/-- `_process_natural_join`: the synthetic placeholder relationship. -/
def process_natural_join (a : Analyzer) (rightTable : Option String) : Analyzer :=
  add_relationship a none "NATURAL" rightTable "NATURAL"

/-- `_process_join`: dispatch on ON / USING / NATURAL, in that order; a
join with none of them (comma-style FROM entry) adds nothing here. -/
def process_join (a : Analyzer) (j : JoinClause) (leftTable : Option String) : Analyzer :=
  let rightTable := get_table_name a.aliasToTable (some j.table)
  match j.onCond with
  | some c => extract_equality_conditions a c
  | none =>
    match j.usingCols with
    | some cols =>
      if cols.isEmpty then
        (if j.kind = some "NATURAL" then process_natural_join a rightTable else a)
      else process_using_clause a cols rightTable leftTable
    | none =>
      if j.kind = some "NATURAL" then process_natural_join a rightTable else a

/-- Fold `_process_join` over a join list. -/
def processJoins (a : Analyzer) (js : List JoinClause) (leftTable : Option String) : Analyzer :=
  js.foldl (fun acc j => process_join acc j leftTable) a

/-- `_extract_joins` on a statement without subqueries: the statement's
`joins` are processed once via the direct `node.joins` loop and once more
via the `find_all(Join)` loop (which finds the same nodes again). -/
def extract_joins (stmt : SelectStmt) (a : Analyzer) : Analyzer :=
  let leftTable := get_table_name a.aliasToTable stmt.fromTable
  processJoins (processJoins a stmt.joins leftTable) stmt.joins leftTable

/-! ### WHERE correlation (`_extract_from_where_relationships`) -/

mutual
/-- `where_clause.find_all(EQ)`: every `EQ` node in the tree, in walk
order, regardless of the boolean structure above it. -/
def findAllEQ : CondNode → List (SqlExpr × SqlExpr)
  | .eq l r => [(l, r)]
  | .and l r => findAllEQ l ++ findAllEQ r
  | .or l r => findAllEQ l ++ findAllEQ r
  | .not c => findAllEQ c
  | .node cs => findAllEQList cs

/-- `find_all(EQ)` over an argument list. -/
def findAllEQList : List CondNode → List (SqlExpr × SqlExpr)
  | [] => []
  | c :: cs => findAllEQ c ++ findAllEQList cs
end

/-- `_process_where_conditions`: every equality between columns of two
distinct truthy resolved tables adds one relationship.  (The
`from_tables` argument is received but never consulted, as in the
source.) -/
def process_where_conditions (a : Analyzer) (w : CondNode) (fromTables : List String) :
    Analyzer :=
  (findAllEQ w).foldl
    (fun acc p =>
      match p with
      | (.col lt lc, .col rt rc) =>
        (match get_column_table acc.aliasToTable lt, get_column_table acc.aliasToTable rt with
         | some t1, some t2 =>
           if t1 ≠ "" ∧ t2 ≠ "" ∧ t1 ≠ t2 then
             add_relationship acc (some t1) lc (some t2) rc
           else acc
         | _, _ => acc)
      | _ => acc)
    a

/-- The resolvable FROM-side tables collected by
`_extract_from_where_relationships` (main FROM table plus every joined
table, truthy names only). -/
def fromTablesOf (am : List (String × String)) (stmt : SelectStmt) : List String :=
  (match get_table_name am stmt.fromTable with
   | some t => if t = "" then [] else [t]
   | none => []) ++
  stmt.joins.filterMap
    (fun j =>
      match get_table_name am (some j.table) with
      | some t => if t = "" then none else some t
      | none => none)

/-- `_extract_from_where_relationships`: when the statement has joins,
more than one resolvable FROM-side table, and at least one join entry
without an `ON` key, scan the WHERE clause. -/
def extract_from_where_relationships (stmt : SelectStmt) (a : Analyzer) : Analyzer :=
  if stmt.joins.isEmpty then a
  else
    let fromTables := fromTablesOf a.aliasToTable stmt
    let commaJoins := stmt.joins.filter (fun j => j.onCond.isNone)
    if 1 < fromTables.length ∧ ¬ commaJoins.isEmpty then
      match stmt.whereCond with
      | some w => process_where_conditions a w fromTables
      | none => a
    else a

/-! ### Top-level analysis (`analyze_sql`, `analyze_multiple_queries`) -/

/-- The reset performed after a successful parse: clear `relationships`,
`tables` and `alias_to_table` (the graph is kept). -/
def resetAnalyzer (a : Analyzer) : Analyzer :=
  { a with relationships := [], tables := [], aliasToTable := [] }

/-- `analyze_sql`.  The parse result of the input text stands in for the
text itself (`none` models a parse failure, which the `except` branch
turns into an empty result, leaving the instance state untouched because
the reset is only reached after a successful parse). -/
def analyze_sql (parsed : Option SelectStmt) (a : Analyzer) : List Relationship × Analyzer :=
  match parsed with
  | none => ([], a)
  | some stmt =>
    let a1 := resetAnalyzer a
    let a2 := { a1 with aliasToTable := build_alias_map stmt a1.aliasToTable }
    let a3 := extract_joins stmt a2
    let a4 := extract_from_where_relationships stmt a3
    (a4.relationships, a4)

/-- The 4-tuple deduplication key of `analyze_multiple_queries`. -/
def key4 (r : Relationship) : Option String × String × Option String × String :=
  (r.table1, r.column1, r.table2, r.column2)

/-- The `seen`-set dedup loop of `analyze_multiple_queries`. -/
def dedupBy4 : List Relationship → List (Option String × String × Option String × String) →
    List Relationship
  | [], _ => []
  | r :: rs, seen =>
    if key4 r ∈ seen then dedupBy4 rs seen else r :: dedupBy4 rs (key4 r :: seen)

/-- `analyze_multiple_queries`: analyze each statement in order, collect
all results, deduplicate by `key4`, and install the deduplicated list as
the instance's relationships. -/
def analyze_multiple_queries (a : Analyzer) (queries : List (Option SelectStmt)) :
    List Relationship × Analyzer :=
  let allPair := queries.foldl
    (fun (acc : List Relationship × Analyzer) q =>
      let r := analyze_sql q acc.2
      (acc.1 ++ r.1, r.2))
    ([], a)
  let unique := dedupBy4 allPair.1 []
  (unique, { allPair.2 with relationships := unique })

/-! ### Claim-side specifications

The definitions below restate, in the words of the specification, which
relationships each phase is supposed to produce.  They are pure list
computations, to be compared against the store-threading source
functions above. -/

/-- A relationship candidate before type annotation: the 4-tuple
(table1, column1, table2, column2). -/
structure RawRel where
  t1 : Option String
  c1 : String
  t2 : Option String
  c2 : String
deriving DecidableEq, Repr

/-- Turn a candidate into the stored record. -/
def mkRaw (p : RawRel) : Relationship :=
  mkRelationship p.t1 p.c1 p.t2 p.c2

/-- First-seen deduplication against an already-stored prefix: keep each
record not already present, in order, skipping later duplicates. -/
def dedupFrom (old : List Relationship) : List Relationship → List Relationship
  | [] => []
  | r :: rs => if r ∈ old then dedupFrom old rs else r :: dedupFrom (old ++ [r]) rs

mutual
/-- Spec wording for the ON-predicate decomposition: an `AND` contributes
the relationships of both branches; an `EQ` between two column references
contributes one relationship exactly when both sides resolve through the
alias map to two distinct (truthy) table names; `OR` and `NOT` contribute
nothing; any other node contributes what its nested arguments contribute. -/
def claimOnPairs (am : List (String × String)) : CondNode → List RawRel
  | .eq l r =>
    (match l, r with
     | .col lt lc, .col rt rc =>
       (match get_column_table am lt, get_column_table am rt with
        | some t1, some t2 =>
          if t1 ≠ "" ∧ t2 ≠ "" ∧ t1 ≠ t2 then [⟨some t1, lc, some t2, rc⟩] else []
        | _, _ => [])
     | _, _ => [])
  | .and l r => claimOnPairs am l ++ claimOnPairs am r
  | .or _ _ => []
  | .not _ => []
  | .node cs => claimOnPairsList am cs

/-- `claimOnPairs` over a nested argument list. -/
def claimOnPairsList (am : List (String × String)) : List CondNode → List RawRel
  | [] => []
  | c :: cs => claimOnPairs am c ++ claimOnPairsList am cs
end

/-- One WHERE equality qualifies when both sides are column references
resolving to two distinct (truthy) table names. -/
def claimWhereEq (am : List (String × String)) : SqlExpr × SqlExpr → Option RawRel
  | (.col lt lc, .col rt rc) =>
    (match get_column_table am lt, get_column_table am rt with
     | some t1, some t2 =>
       if t1 ≠ "" ∧ t2 ≠ "" ∧ t1 ≠ t2 then some ⟨some t1, lc, some t2, rc⟩ else none
     | _, _ => none)
  | _ => none

/-- Spec wording for WHERE correlation: every equality node anywhere in
the WHERE tree whose two sides are column references resolving to two
distinct table names yields one relationship; nothing else yields any. -/
def claimWherePairs (am : List (String × String)) (w : CondNode) : List RawRel :=
  (findAllEQ w).filterMap (claimWhereEq am)

/-- Spec wording for USING: one relationship per named column, same column
name on both sides, left side the FROM table or the `"LEFT_TABLE"`
placeholder. -/
def claimUsingPairs (cols : List String) (rightTable leftTable : Option String) : List RawRel :=
  cols.filterMap
    (fun c => if c = "" then none else some ⟨some (leftTableOr leftTable), c, rightTable, c⟩)

/-- Spec wording for type inference: the ordered first-match rules. -/
def claimInferType (c : String) : String :=
  if c = "" ∨ c = "NATURAL" then "UNKNOWN"
  else if c = "id" then "INT PRIMARY KEY"
  else if strEndsWith c "_id" then "INT FOREIGN KEY"
  else if strEndsWith c "_at" || strEndsWith c "_time" then "DATETIME"
  else if strEndsWith c "_date" then "DATE"
  else if strEndsWith c "_count" || strEndsWith c "_num" then "INT"
  else if strEndsWith c "_flag" || strStartsWith c "is_" then "BOOLEAN"
  else "VARCHAR(255)"

/-! ### Derived characterizations of the pipeline stages -/

/-- The candidates one `_process_join` call emits, as a function of the
alias map. -/
def joinPairs (am : List (String × String)) (j : JoinClause) (leftTable : Option String) :
    List RawRel :=
  let rightTable := get_table_name am (some j.table)
  match j.onCond with
  | some c => claimOnPairs am c
  | none =>
    match j.usingCols with
    | some cols =>
      if cols.isEmpty then
        (if j.kind = some "NATURAL" then [⟨none, "NATURAL", rightTable, "NATURAL"⟩] else [])
      else claimUsingPairs cols rightTable leftTable
    | none =>
      if j.kind = some "NATURAL" then [⟨none, "NATURAL", rightTable, "NATURAL"⟩] else []

/-- The candidates the `_extract_joins` phase emits (each join processed
twice: once via `node.joins`, once via `find_all(Join)`). -/
def joinStagePairs (am : List (String × String)) (stmt : SelectStmt) : List RawRel :=
  let leftTable := get_table_name am stmt.fromTable
  let jp := concatMap (fun j => joinPairs am j leftTable) stmt.joins
  jp ++ jp

/-- The candidates the `_extract_from_where_relationships` phase emits. -/
def whereStagePairs (am : List (String × String)) (stmt : SelectStmt) : List RawRel :=
  if stmt.joins.isEmpty then []
  else if 1 < (fromTablesOf am stmt).length ∧
      ¬ (stmt.joins.filter (fun j => j.onCond.isNone)).isEmpty then
    match stmt.whereCond with
    | some w => claimWherePairs am w
    | none => []
  else []

/-- All candidates one successful `analyze_sql` call emits. -/
def stmtPairs (stmt : SelectStmt) : List RawRel :=
  let am := build_alias_map stmt []
  joinStagePairs am stmt ++ whereStagePairs am stmt

/-- The relationship list a single parsed statement produces, independent
of the analyzer instance it is run on. -/
def analyzeStmtRels (q : Option SelectStmt) : List Relationship :=
  (analyze_sql q emptyAnalyzer).1

/-- Fold `_add_relationship` over a list of candidates (used to state the
store invariants). -/
def add_rel_list (a : Analyzer) (ps : List RawRel) : Analyzer :=
  ps.foldl (fun acc p => add_relationship acc p.t1 p.c1 p.t2 p.c2) a

/-! ### Concrete example statements from the specification -/

/-- `FROM a JOIN b ON a.x = b.y AND a.z = b.w`. -/
def andExampleStmt : SelectStmt :=
  { fromTable := some { name := some "a", aliasName := none }
    joins := [{ table := { name := some "b", aliasName := none }
                onCond := some (.and (.eq (.col (some "a") "x") (.col (some "b") "y"))
                                     (.eq (.col (some "a") "z") (.col (some "b") "w")))
                usingCols := none
                kind := none }]
    whereCond := none }

/-- `FROM a JOIN b ON a.x = b.y OR a.z = b.w`. -/
def orExampleStmt : SelectStmt :=
  { fromTable := some { name := some "a", aliasName := none }
    joins := [{ table := { name := some "b", aliasName := none }
                onCond := some (.or (.eq (.col (some "a") "x") (.col (some "b") "y"))
                                    (.eq (.col (some "a") "z") (.col (some "b") "w")))
                usingCols := none
                kind := none }]
    whereCond := none }

/-- `FROM a, b WHERE a.id = b.a_id` (comma join parsed as an ON-less join). -/
def commaExampleStmt1 : SelectStmt :=
  { fromTable := some { name := some "a", aliasName := none }
    joins := [{ table := { name := some "b", aliasName := none }
                onCond := none, usingCols := none, kind := none }]
    whereCond := some (.eq (.col (some "a") "id") (.col (some "b") "a_id")) }

/-- `FROM a, b WHERE a.id = b.a_id AND a.status = 'x'`. -/
def commaExampleStmt2 : SelectStmt :=
  { fromTable := some { name := some "a", aliasName := none }
    joins := [{ table := { name := some "b", aliasName := none }
                onCond := none, usingCols := none, kind := none }]
    whereCond := some (.and (.eq (.col (some "a") "id") (.col (some "b") "a_id"))
                            (.eq (.col (some "a") "status") (.lit "x"))) }

/-- `FROM e JOIN d USING (dept_id)`. -/
def usingExampleStmt : SelectStmt :=
  { fromTable := some { name := some "e", aliasName := none }
    joins := [{ table := { name := some "d", aliasName := none }
                onCond := none, usingCols := some ["dept_id"], kind := none }]
    whereCond := none }

/-- `FROM e NATURAL JOIN d`. -/
def naturalExampleStmt : SelectStmt :=
  { fromTable := some { name := some "e", aliasName := none }
    joins := [{ table := { name := some "d", aliasName := none }
                onCond := none, usingCols := none, kind := some "NATURAL" }]
    whereCond := none }

/-- A pipeline stage `f` emits the candidate list `L` (computed from the
alias map): it appends exactly the not-yet-stored candidates, in order,
and leaves the alias map unchanged. -/
def Emits (f : Analyzer → Analyzer) (L : List (String × String) → List RawRel) : Prop :=
  ∀ a : Analyzer,
    (f a).relationships =
      a.relationships ++ dedupFrom a.relationships ((L a.aliasToTable).map mkRaw) ∧
    (f a).aliasToTable = a.aliasToTable

/-- `t` occurs on a (truthy) side of some stored relationship whose two
table names are both truthy. -/
def relWitness (a : Analyzer) (t : String) : Prop :=
  ∃ r ∈ a.relationships,
    optTruthy r.table1 = true ∧ optTruthy r.table2 = true ∧
    (r.table1 = some t ∨ r.table2 = some t)

/-- Every stored table name and every graph-edge endpoint stems from a
both-sides-resolved relationship. -/
def GoodTables (a : Analyzer) : Prop :=
  (∀ t ∈ a.tables, relWitness a t) ∧
  (∀ e ∈ a.edges, relWitness a e.src ∧ relWitness a e.dst)

/-! ## Lemmas about deduplicating insertion -/

theorem dedupFrom_nil (old : List Relationship) : dedupFrom old [] = [] := rfl

theorem dedupFrom_append (old xs ys : List Relationship) :
    dedupFrom old (xs ++ ys) =
      dedupFrom old xs ++ dedupFrom (old ++ dedupFrom old xs) ys := by
  induction xs generalizing old with
  | nil => simp [dedupFrom]
  | cons x xs ih =>
    by_cases hx : x ∈ old
    · simp [dedupFrom, hx, ih]
    · simp [dedupFrom, hx, ih, List.append_assoc]

theorem mem_append_dedupFrom (old xs : List Relationship) :
    ∀ x ∈ xs, x ∈ old ++ dedupFrom old xs := by
  induction xs generalizing old with
  | nil => intro x hx; cases hx
  | cons y xs ih =>
    intro x hx
    by_cases hy : y ∈ old
    · simp only [dedupFrom, if_pos hy]
      rcases List.mem_cons.mp hx with rfl | hx2
      · exact List.mem_append_left _ hy
      · exact ih old x hx2
    · simp only [dedupFrom, if_neg hy]
      rcases List.mem_cons.mp hx with rfl | hx2
      · simp
      · have := ih (old ++ [y]) x hx2
        simp only [List.mem_append, List.mem_singleton, List.mem_cons] at this ⊢
        tauto

theorem dedupFrom_eq_nil_of_subset (old : List Relationship) (xs : List Relationship)
    (h : ∀ x ∈ xs, x ∈ old) : dedupFrom old xs = [] := by
  induction xs with
  | nil => rfl
  | cons x xs ih =>
    have hx : x ∈ old := h x (by simp)
    simp only [dedupFrom, if_pos hx]
    exact ih (fun y hy => h y (by simp [hy]))

theorem dedupFrom_congr (old1 old2 xs : List Relationship)
    (h : ∀ r, r ∈ old1 ↔ r ∈ old2) : dedupFrom old1 xs = dedupFrom old2 xs := by
  induction xs generalizing old1 old2 with
  | nil => rfl
  | cons x xs ih =>
    by_cases hx : x ∈ old1
    · have hx2 : x ∈ old2 := (h x).1 hx
      simp only [dedupFrom, if_pos hx, if_pos hx2]
      exact ih old1 old2 h
    · have hx2 : x ∉ old2 := fun hc => hx ((h x).2 hc)
      simp only [dedupFrom, if_neg hx, if_neg hx2]
      rw [ih (old1 ++ [x]) (old2 ++ [x]) (by intro r; simp [h r])]

theorem dedupFrom_self_append (old xs : List Relationship) :
    dedupFrom old (xs ++ xs) = dedupFrom old xs := by
  rw [dedupFrom_append]
  have h : dedupFrom (old ++ dedupFrom old xs) xs = [] :=
    dedupFrom_eq_nil_of_subset _ _ (fun x hx => mem_append_dedupFrom old xs x hx)
  simp [h]

/-! ## Lemmas about `_add_relationship` -/

theorem add_relationship_relationships (a : Analyzer) (t1 : Option String) (c1 : String)
    (t2 : Option String) (c2 : String) :
    (add_relationship a t1 c1 t2 c2).relationships =
      if mkRelationship t1 c1 t2 c2 ∈ a.relationships then a.relationships
      else a.relationships ++ [mkRelationship t1 c1 t2 c2] := by
  unfold add_relationship
  split <;> rfl

theorem add_relationship_aliasToTable (a : Analyzer) (t1 : Option String) (c1 : String)
    (t2 : Option String) (c2 : String) :
    (add_relationship a t1 c1 t2 c2).aliasToTable = a.aliasToTable := by
  unfold add_relationship
  split <;> rfl

/-! ## The `Emits` calculus -/

theorem emits_id : Emits (fun a => a) (fun _ => []) := by
  intro a
  simp [dedupFrom]

theorem emits_add (g : List (String × String) → RawRel) :
    Emits
      (fun a =>
        add_relationship a (g a.aliasToTable).t1 (g a.aliasToTable).c1
          (g a.aliasToTable).t2 (g a.aliasToTable).c2)
      (fun am => [g am]) := by
  intro a
  refine ⟨?_, add_relationship_aliasToTable _ _ _ _ _⟩
  rw [add_relationship_relationships]
  by_cases h : mkRaw (g a.aliasToTable) ∈ a.relationships
  · simp only [List.map_cons, List.map_nil, dedupFrom, if_pos h, mkRaw] at *
    simp [h, mkRaw]
  · simp only [List.map_cons, List.map_nil, dedupFrom, if_neg h, mkRaw] at *
    simp [h, mkRaw]

theorem emits_comp {f g : Analyzer → Analyzer}
    {L M : List (String × String) → List RawRel}
    (hf : Emits f L) (hg : Emits g M) :
    Emits (fun a => g (f a)) (fun am => L am ++ M am) := by
  intro a
  obtain ⟨h1, h2⟩ := hf a
  obtain ⟨h3, h4⟩ := hg (f a)
  constructor
  · rw [h3, h1, h2, List.map_append, dedupFrom_append, List.append_assoc]
  · rw [h4, h2]

theorem emits_congr {f : Analyzer → Analyzer}
    {L M : List (String × String) → List RawRel}
    (hf : Emits f L) (h : ∀ am, L am = M am) : Emits f M := by
  intro a
  rw [← h a.aliasToTable]
  exact hf a

/-! ## `Emits` for the ON-condition decomposition -/

theorem emits_eq_case (l r : SqlExpr) :
    Emits (fun a => extract_equality_conditions a (.eq l r))
      (fun am => claimOnPairs am (.eq l r)) := by
  intro a
  simp only [extract_equality_conditions, claimOnPairs]
  cases l with
  | lit v => simp [dedupFrom]
  | col lt lc =>
    cases r with
    | lit v => simp [dedupFrom]
    | col rt rc =>
      cases h1 : get_column_table a.aliasToTable lt with
      | none => simp [h1, dedupFrom]
      | some t1 =>
        cases h2 : get_column_table a.aliasToTable rt with
        | none => simp [h1, h2, dedupFrom]
        | some t2 =>
          simp only [h1, h2]
          by_cases hc : t1 ≠ "" ∧ t2 ≠ "" ∧ t1 ≠ t2
          · simp only [if_pos hc]
            refine ⟨?_, add_relationship_aliasToTable _ _ _ _ _⟩
            rw [add_relationship_relationships]
            by_cases hm : mkRelationship (some t1) lc (some t2) rc ∈ a.relationships
            · simp [dedupFrom, mkRaw, hm]
            · simp [dedupFrom, mkRaw, hm]
          · simp [if_neg hc, dedupFrom]

theorem extract_eq_emits_aux (n : Nat) :
    (∀ c : CondNode, sizeOf c ≤ n →
      Emits (fun a => extract_equality_conditions a c) (fun am => claimOnPairs am c)) ∧
    (∀ cs : List CondNode, sizeOf cs ≤ n →
      Emits (fun a => extract_equality_conditions_list a cs)
        (fun am => claimOnPairsList am cs)) := by
  induction n with
  | zero =>
    constructor
    · intro c hc
      exact absurd hc (by cases c <;> simp)
    · intro cs hcs
      exact absurd hcs (by cases cs <;> simp)
  | succ n ih =>
    constructor
    · intro c hc
      cases c with
      | eq l r => exact emits_eq_case l r
      | and l r =>
        have hl : sizeOf l ≤ n := by simp at hc; omega
        have hr : sizeOf r ≤ n := by simp at hc; omega
        have h := emits_comp (ih.1 l hl) (ih.1 r hr)
        intro a
        have ha := h a
        simp only [extract_equality_conditions, claimOnPairs]
        simpa using ha
      | or l r =>
        intro a
        simp [extract_equality_conditions, claimOnPairs, dedupFrom]
      | not c =>
        intro a
        simp [extract_equality_conditions, claimOnPairs, dedupFrom]
      | node cs =>
        have hcs : sizeOf cs ≤ n := by simp at hc; omega
        have h := ih.2 cs hcs
        intro a
        have ha := h a
        simp only [extract_equality_conditions, claimOnPairs]
        simpa using ha
    · intro cs hcs
      cases cs with
      | nil =>
        intro a
        simp [extract_equality_conditions_list, claimOnPairsList, dedupFrom]
      | cons c cs =>
        have hc : sizeOf c ≤ n := by simp at hcs; omega
        have hcs2 : sizeOf cs ≤ n := by simp at hcs; omega
        have h := emits_comp (ih.1 c hc) (ih.2 cs hcs2)
        intro a
        have ha := h a
        simp only [extract_equality_conditions_list, claimOnPairsList]
        simpa using ha

theorem extract_eq_emits (c : CondNode) :
    Emits (fun a => extract_equality_conditions a c) (fun am => claimOnPairs am c) :=
  (extract_eq_emits_aux (sizeOf c)).1 c le_rfl

/-! ## `Emits` for the USING / NATURAL / join dispatch -/

theorem using_emits (cols : List String) (rt lt : Option String) :
    Emits (fun a => process_using_clause a cols rt lt)
      (fun _ => claimUsingPairs cols rt lt) := by
  induction cols with
  | nil =>
    intro a
    simp [process_using_clause, claimUsingPairs, dedupFrom]
  | cons c cs ih =>
    have hstep : Emits
        (fun a => if c = "" then a
                  else add_relationship a (some (leftTableOr lt)) c rt c)
        (fun _ => if c = "" then []
                  else [⟨some (leftTableOr lt), c, rt, c⟩]) := by
      by_cases hc : c = ""
      · intro a
        simp [hc, dedupFrom]
      · intro a
        have h := emits_add (fun _ => (⟨some (leftTableOr lt), c, rt, c⟩ : RawRel)) a
        simpa [hc] using h
    have h := emits_comp hstep ih
    intro a
    have ha := h a
    by_cases hc : c = ""
    · simpa [process_using_clause, claimUsingPairs, hc] using ha
    · simpa [process_using_clause, claimUsingPairs, hc] using ha

theorem process_join_emits (j : JoinClause) (lt : Option String) :
    Emits (fun a => process_join a j lt) (fun am => joinPairs am j lt) := by
  obtain ⟨tbl, onc, uc, k⟩ := j
  cases onc with
  | some c =>
    intro a
    have h := extract_eq_emits c a
    simpa [process_join, joinPairs] using h
  | none =>
    cases uc with
    | some cols =>
      by_cases he : cols.isEmpty
      · by_cases hk : k = some "NATURAL"
        · intro a
          have h := emits_add
            (fun am => (⟨none, "NATURAL", get_table_name am (some tbl), "NATURAL"⟩ : RawRel)) a
          simpa [process_join, joinPairs, process_natural_join, he, hk] using h
        · intro a
          simp [process_join, joinPairs, he, hk, dedupFrom]
      · intro a
        have h := using_emits cols (get_table_name a.aliasToTable (some tbl)) lt a
        simpa [process_join, joinPairs, he] using h
    | none =>
      by_cases hk : k = some "NATURAL"
      · intro a
        have h := emits_add
          (fun am => (⟨none, "NATURAL", get_table_name am (some tbl), "NATURAL"⟩ : RawRel)) a
        simpa [process_join, joinPairs, process_natural_join, hk] using h
      · intro a
        simp [process_join, joinPairs, hk, dedupFrom]

theorem processJoins_emits (js : List JoinClause) (lt : Option String) :
    Emits (fun a => processJoins a js lt)
      (fun am => concatMap (fun j => joinPairs am j lt) js) := by
  induction js with
  | nil =>
    intro a
    simp [processJoins, concatMap, dedupFrom]
  | cons j js ih =>
    have h := emits_comp (process_join_emits j lt) ih
    intro a
    have ha := h a
    simpa [processJoins, concatMap] using ha

theorem extract_joins_emits (stmt : SelectStmt) :
    Emits (fun a => extract_joins stmt a) (fun am => joinStagePairs am stmt) := by
  intro a
  have h := emits_comp
    (processJoins_emits stmt.joins (get_table_name a.aliasToTable stmt.fromTable))
    (processJoins_emits stmt.joins (get_table_name a.aliasToTable stmt.fromTable))
  have ha := h a
  simpa [extract_joins, joinStagePairs] using ha

/-! ## `Emits` for the WHERE correlation -/

theorem where_step_emits (p : SqlExpr × SqlExpr) :
    Emits
      (fun acc =>
        match p with
        | (.col lt lc, .col rt rc) =>
          (match get_column_table acc.aliasToTable lt, get_column_table acc.aliasToTable rt with
           | some t1, some t2 =>
             if t1 ≠ "" ∧ t2 ≠ "" ∧ t1 ≠ t2 then
               add_relationship acc (some t1) lc (some t2) rc
             else acc
           | _, _ => acc)
        | _ => acc)
      (fun am => (claimWhereEq am p).toList) := by
  obtain ⟨l, r⟩ := p
  intro a
  cases l with
  | lit v => simp [claimWhereEq, dedupFrom]
  | col lt lc =>
    cases r with
    | lit v => simp [claimWhereEq, dedupFrom]
    | col rt rc =>
      simp only [claimWhereEq]
      cases h1 : get_column_table a.aliasToTable lt with
      | none => simp [h1, dedupFrom]
      | some t1 =>
        cases h2 : get_column_table a.aliasToTable rt with
        | none => simp [h1, h2, dedupFrom]
        | some t2 =>
          simp only [h1, h2]
          by_cases hc : t1 ≠ "" ∧ t2 ≠ "" ∧ t1 ≠ t2
          · simp only [if_pos hc, Option.toList_some]
            refine ⟨?_, add_relationship_aliasToTable _ _ _ _ _⟩
            rw [add_relationship_relationships]
            by_cases hm : mkRelationship (some t1) lc (some t2) rc ∈ a.relationships
            · simp [dedupFrom, mkRaw, hm]
            · simp [dedupFrom, mkRaw, hm]
          · simp [if_neg hc, dedupFrom]

theorem where_fold_emits (ps : List (SqlExpr × SqlExpr)) :
    Emits
      (fun a =>
        ps.foldl
          (fun acc p =>
            match p with
            | (.col lt lc, .col rt rc) =>
              (match get_column_table acc.aliasToTable lt,
                     get_column_table acc.aliasToTable rt with
               | some t1, some t2 =>
                 if t1 ≠ "" ∧ t2 ≠ "" ∧ t1 ≠ t2 then
                   add_relationship acc (some t1) lc (some t2) rc
                 else acc
               | _, _ => acc)
            | _ => acc)
          a)
      (fun am => ps.filterMap (claimWhereEq am)) := by
  induction ps with
  | nil =>
    intro a
    simp [dedupFrom]
  | cons p ps ih =>
    have h := emits_comp (where_step_emits p) ih
    intro a
    have ha := h a
    refine ⟨?_, ha.2⟩
    have h1 := ha.1
    dsimp only at h1 ⊢
    rw [List.foldl_cons, h1]
    congr 2
    cases hq : claimWhereEq a.aliasToTable p with
    | none => simp [List.filterMap_cons, hq]
    | some q => simp [List.filterMap_cons, hq]

theorem where_conditions_emits (w : CondNode) (ft : List String) :
    Emits (fun a => process_where_conditions a w ft)
      (fun am => claimWherePairs am w) := by
  intro a
  have h := where_fold_emits (findAllEQ w) a
  simpa [process_where_conditions, claimWherePairs] using h

theorem extract_from_where_emits (stmt : SelectStmt) :
    Emits (fun a => extract_from_where_relationships stmt a)
      (fun am => whereStagePairs am stmt) := by
  intro a
  by_cases hj : stmt.joins.isEmpty
  · simp [extract_from_where_relationships, whereStagePairs, hj, dedupFrom]
  · by_cases hcond : 1 < (fromTablesOf a.aliasToTable stmt).length ∧
        ¬ (stmt.joins.filter (fun j => j.onCond.isNone)).isEmpty
    · cases hw : stmt.whereCond with
      | none =>
        simp [extract_from_where_relationships, whereStagePairs, hj, hcond, hw, dedupFrom]
      | some w =>
        have h := where_conditions_emits w (fromTablesOf a.aliasToTable stmt) a
        simpa [extract_from_where_relationships, whereStagePairs, hj, hcond, hw] using h
    · simp only [extract_from_where_relationships, whereStagePairs, hj, Bool.false_eq_true,
        if_false]
      rw [if_neg hcond, if_neg hcond]
      simp [dedupFrom]

/-! ## Characterizing `analyze_sql` -/

theorem analyze_sql_none_eq (a : Analyzer) : analyze_sql none a = ([], a) := rfl

theorem analyze_sql_some_fst (stmt : SelectStmt) (a : Analyzer) :
    (analyze_sql (some stmt) a).1 = dedupFrom [] ((stmtPairs stmt).map mkRaw) := by
  have h := emits_comp (extract_joins_emits stmt) (extract_from_where_emits stmt)
  have ha := h { resetAnalyzer a with aliasToTable := build_alias_map stmt [] }
  simpa [analyze_sql, stmtPairs, resetAnalyzer] using ha.1

theorem analyze_sql_fst_eq (q : Option SelectStmt) (a : Analyzer) :
    (analyze_sql q a).1 = analyzeStmtRels q := by
  cases q with
  | none => rfl
  | some stmt => rw [analyze_sql_some_fst, analyzeStmtRels, analyze_sql_some_fst]

/-! ## Lemmas about the batch dedup loop -/

theorem foldl_analyze_fst (queries : List (Option SelectStmt)) (acc : List Relationship)
    (a : Analyzer) :
    (queries.foldl
        (fun (acc : List Relationship × Analyzer) q =>
          let r := analyze_sql q acc.2
          (acc.1 ++ r.1, r.2))
        (acc, a)).1 = acc ++ concatMap analyzeStmtRels queries := by
  induction queries generalizing acc a with
  | nil => simp [concatMap]
  | cons q qs ih =>
    simp only [List.foldl_cons]
    rw [ih]
    rw [analyze_sql_fst_eq]
    simp [concatMap, List.append_assoc]

theorem dedupBy4_sublist (xs : List Relationship)
    (seen : List (Option String × String × Option String × String)) :
    (dedupBy4 xs seen).Sublist xs := by
  induction xs generalizing seen with
  | nil => simp [dedupBy4]
  | cons x xs ih =>
    by_cases h : key4 x ∈ seen
    · simp only [dedupBy4, if_pos h]
      exact (ih seen).cons x
    · simp only [dedupBy4, if_neg h]
      exact (ih _).cons₂ x

theorem dedupBy4_key_not_seen (xs : List Relationship)
    (seen : List (Option String × String × Option String × String)) :
    ∀ r ∈ dedupBy4 xs seen, key4 r ∉ seen := by
  induction xs generalizing seen with
  | nil => intro r hr; cases hr
  | cons x xs ih =>
    intro r hr
    by_cases h : key4 x ∈ seen
    · simp only [dedupBy4, if_pos h] at hr
      exact ih seen r hr
    · simp only [dedupBy4, if_neg h] at hr
      rcases List.mem_cons.mp hr with rfl | hr2
      · exact h
      · have := ih _ r hr2
        intro hc
        exact this (List.mem_cons_of_mem _ hc)

theorem dedupBy4_pairwise (xs : List Relationship)
    (seen : List (Option String × String × Option String × String)) :
    (dedupBy4 xs seen).Pairwise (fun r s => key4 r ≠ key4 s) := by
  induction xs generalizing seen with
  | nil => simp [dedupBy4]
  | cons x xs ih =>
    by_cases h : key4 x ∈ seen
    · simp only [dedupBy4, if_pos h]
      exact ih seen
    · simp only [dedupBy4, if_neg h]
      refine List.Pairwise.cons ?_ (ih _)
      intro s hs hc
      have := dedupBy4_key_not_seen xs (key4 x :: seen) s hs
      exact this (by simp [hc])

theorem dedupBy4_find_first (xs : List Relationship)
    (seen : List (Option String × String × Option String × String)) :
    ∀ r ∈ dedupBy4 xs seen,
      xs.find? (fun x => decide (key4 x = key4 r)) = some r := by
  induction xs generalizing seen with
  | nil => intro r hr; cases hr
  | cons x xs ih =>
    intro r hr
    by_cases h : key4 x ∈ seen
    · simp only [dedupBy4, if_pos h] at hr
      have hne : key4 r ∉ seen := dedupBy4_key_not_seen xs seen r hr
      have hxr : ¬ key4 x = key4 r := fun hc => hne (hc ▸ h)
      rw [List.find?_cons_of_neg _ (by simpa using hxr)]
      exact ih seen r hr
    · simp only [dedupBy4, if_neg h] at hr
      rcases List.mem_cons.mp hr with rfl | hr2
      · rw [List.find?_cons_of_pos _ (by simp)]
      · have hne := dedupBy4_key_not_seen xs (key4 x :: seen) r hr2
        have hxr : ¬ key4 x = key4 r := by
          intro hc
          exact hne (by simp [hc])
        rw [List.find?_cons_of_neg _ (by simpa using hxr)]
        exact ih _ r hr2

theorem dedupBy4_key_covered (xs : List Relationship)
    (seen : List (Option String × String × Option String × String)) :
    ∀ r ∈ xs, key4 r ∈ seen ∨ ∃ s ∈ dedupBy4 xs seen, key4 s = key4 r := by
  induction xs generalizing seen with
  | nil => intro r hr; cases hr
  | cons x xs ih =>
    intro r hr
    rcases List.mem_cons.mp hr with rfl | hr2
    · by_cases h : key4 r ∈ seen
      · exact Or.inl h
      · exact Or.inr ⟨r, by simp [dedupBy4, if_neg h], rfl⟩
    · by_cases h : key4 x ∈ seen
      · rcases ih seen r hr2 with hs | ⟨s, hs, hk⟩
        · exact Or.inl hs
        · exact Or.inr ⟨s, by simpa [dedupBy4, if_pos h] using hs, hk⟩
      · rcases ih (key4 x :: seen) r hr2 with hs | ⟨s, hs, hk⟩
        · rcases List.mem_cons.mp hs with heq | hs2
          · exact Or.inr ⟨x, by simp [dedupBy4, if_neg h], heq.symm⟩
          · exact Or.inl hs2
        · exact Or.inr ⟨s, by simp [dedupBy4, if_neg h, List.mem_cons, hs], hk⟩

/-! ## Lemmas about the graph-edge label update -/

theorem charsLead_refl (l : List Char) : charsLead l l = true := by
  induction l with
  | nil => rfl
  | cons a as ih => simp [charsLead, ih]

theorem strOccursIn_refl (s : String) : strOccursIn s s = true := by
  unfold strOccursIn
  cases h : s.data with
  | nil => simp [charsOccur, h, List.isEmpty]
  | cons c rest =>
    simp [charsOccur, charsLead_refl]

theorem updateEdges_cons_of_neg (e : Edge) (es : List Edge) (t1 t2 c1 c2 : String)
    (h : ¬ (e.src = t1 ∧ e.dst = t2)) :
    updateEdges (e :: es) t1 t2 c1 c2 = e :: updateEdges es t1 t2 c1 c2 := by
  unfold updateEdges
  have hc : ((e :: es).any (fun x => decide (x.src = t1 ∧ x.dst = t2))) =
      (es.any (fun x => decide (x.src = t1 ∧ x.dst = t2))) := by
    simp [List.any_cons, h]
  rw [hc]
  by_cases hany : es.any (fun x => decide (x.src = t1 ∧ x.dst = t2))
  · rw [if_pos hany, if_pos hany]
    simp [h]
  · rw [if_neg hany, if_neg hany]
    simp

theorem edgeColumns_updateEdges (es : List Edge) (t1 t2 c1 c2 : String) :
    ((updateEdges es t1 t2 c1 c2).find? (fun e => e.src = t1 ∧ e.dst = t2)).map
        (fun e => e.columns) =
      some
        (match (es.find? (fun e => e.src = t1 ∧ e.dst = t2)).map (fun e => e.columns) with
         | some L => combineLabel L (edgeLabel c1 c2)
         | none => edgeLabel c1 c2) := by
  induction es with
  | nil =>
    unfold updateEdges
    rw [if_neg (by simp)]
    rw [List.nil_append, List.find?_cons_of_pos _ (by simp)]
    simp [List.find?_nil]
  | cons e es ih =>
    by_cases hpe : e.src = t1 ∧ e.dst = t2
    · have hany : ((e :: es).any (fun x => decide (x.src = t1 ∧ x.dst = t2))) = true := by
        simp [List.any_cons, hpe]
      unfold updateEdges
      rw [if_pos hany]
      simp only [List.map_cons, if_pos hpe]
      rw [List.find?_cons_of_pos _ (by simpa using hpe),
          List.find?_cons_of_pos _ (by simpa using hpe)]
      simp
    · rw [updateEdges_cons_of_neg e es t1 t2 c1 c2 hpe]
      rw [List.find?_cons_of_neg _ (by simpa using hpe),
          List.find?_cons_of_neg _ (by simpa using hpe)]
      exact ih

theorem edgeColumns_add_relationship (a : Analyzer) (t1 c1 t2 c2 : String)
    (h1 : t1 ≠ "") (h2 : t2 ≠ "") :
    edgeColumns (add_relationship a (some t1) c1 (some t2) c2) t1 t2 =
      some
        (match edgeColumns a t1 t2 with
         | some L => combineLabel L (edgeLabel c1 c2)
         | none => edgeLabel c1 c2) := by
  have ht : (optTruthy (some t1) && optTruthy (some t2)) = true := by
    simp [optTruthy, h1, h2]
  have key := edgeColumns_updateEdges a.edges t1 t2 c1 c2
  unfold edgeColumns
  simp only [add_relationship, ht, if_true, Option.getD_some]
  simpa using key

theorem combineLabel_of_contained (L lbl : String) (h : strOccursIn lbl L = true) :
    combineLabel L lbl = lbl := by
  unfold combineLabel
  simp [h]

theorem combineLabel_of_not_contained (L lbl : String) (hL : L ≠ "")
    (h : strOccursIn lbl L = false) : combineLabel L lbl = L ++ "; " ++ lbl := by
  unfold combineLabel
  simp [h, hL]

/-! ## Lemmas about the store/graph invariant -/

theorem add_relationship_rels_mono (a : Analyzer) (t1 : Option String) (c1 : String)
    (t2 : Option String) (c2 : String) (r : Relationship) (h : r ∈ a.relationships) :
    r ∈ (add_relationship a t1 c1 t2 c2).relationships := by
  rw [add_relationship_relationships]
  split
  · exact h
  · exact List.mem_append_left _ h

theorem add_relationship_self_mem (a : Analyzer) (t1 : Option String) (c1 : String)
    (t2 : Option String) (c2 : String) :
    mkRelationship t1 c1 t2 c2 ∈ (add_relationship a t1 c1 t2 c2).relationships := by
  rw [add_relationship_relationships]
  split
  · assumption
  · simp

theorem addTableName_mem (ts : List String) (s t : String) (h : t ∈ addTableName ts s) :
    t ∈ ts ∨ t = s := by
  unfold addTableName at h
  split at h
  · exact Or.inl h
  · rcases List.mem_append.mp h with h2 | h2
    · exact Or.inl h2
    · exact Or.inr (by simpa using h2)

theorem updateEdges_endpoints (es : List Edge) (t1 t2 c1 c2 : String) (e2 : Edge)
    (h : e2 ∈ updateEdges es t1 t2 c1 c2) :
    (∃ e ∈ es, e2.src = e.src ∧ e2.dst = e.dst) ∨ (e2.src = t1 ∧ e2.dst = t2) := by
  unfold updateEdges at h
  split at h
  · rcases List.mem_map.mp h with ⟨e, he, heq⟩
    by_cases hpe : e.src = t1 ∧ e.dst = t2
    · rw [if_pos hpe] at heq
      exact Or.inl ⟨e, he, by rw [← heq]; exact ⟨rfl, rfl⟩⟩
    · rw [if_neg hpe] at heq
      exact Or.inl ⟨e, he, by rw [← heq]; exact ⟨rfl, rfl⟩⟩
  · rcases List.mem_append.mp h with h2 | h2
    · exact Or.inl ⟨e2, h2, rfl, rfl⟩
    · have he2 : e2 = { src := t1, dst := t2, columns := edgeLabel c1 c2 } := by simpa using h2
      exact Or.inr (by rw [he2]; exact ⟨rfl, rfl⟩)

theorem relWitness_add (a : Analyzer) (p : RawRel) (t : String) (h : relWitness a t) :
    relWitness (add_relationship a p.t1 p.c1 p.t2 p.c2) t := by
  obtain ⟨r, hr, hv⟩ := h
  exact ⟨r, add_relationship_rels_mono a p.t1 p.c1 p.t2 p.c2 r hr, hv⟩

theorem goodTables_add (a : Analyzer) (p : RawRel) (h : GoodTables a) :
    GoodTables (add_relationship a p.t1 p.c1 p.t2 p.c2) := by
  obtain ⟨ht, he⟩ := h
  by_cases htr : (optTruthy p.t1 && optTruthy p.t2) = true
  · obtain ⟨s1, hs1⟩ : ∃ s, p.t1 = some s := by
      cases hp : p.t1 with
      | none => rw [hp] at htr; simp [optTruthy] at htr
      | some s => exact ⟨s, rfl⟩
    obtain ⟨s2, hs2⟩ : ∃ s, p.t2 = some s := by
      cases hp : p.t2 with
      | none => rw [hp] at htr; simp [optTruthy] at htr
      | some s => exact ⟨s, rfl⟩
    have htr2 : (optTruthy p.t1 && optTruthy p.t2) = true := htr
    rw [Bool.and_eq_true] at htr
    have hw1 : relWitness (add_relationship a p.t1 p.c1 p.t2 p.c2) s1 :=
      ⟨mkRelationship p.t1 p.c1 p.t2 p.c2, add_relationship_self_mem a _ _ _ _,
        htr.1, htr.2, Or.inl hs1⟩
    have hw2 : relWitness (add_relationship a p.t1 p.c1 p.t2 p.c2) s2 :=
      ⟨mkRelationship p.t1 p.c1 p.t2 p.c2, add_relationship_self_mem a _ _ _ _,
        htr.1, htr.2, Or.inr hs2⟩
    have htab : (add_relationship a p.t1 p.c1 p.t2 p.c2).tables =
        addTableName (addTableName a.tables (p.t1.getD "")) (p.t2.getD "") := by
      simp only [add_relationship, htr2, if_true]
    have hedg : (add_relationship a p.t1 p.c1 p.t2 p.c2).edges =
        updateEdges a.edges (p.t1.getD "") (p.t2.getD "") p.c1 p.c2 := by
      simp only [add_relationship, htr2, if_true]
    have hg1 : p.t1.getD "" = s1 := by rw [hs1]; rfl
    have hg2 : p.t2.getD "" = s2 := by rw [hs2]; rfl
    constructor
    · intro t htm
      rw [htab] at htm
      rcases addTableName_mem _ _ _ htm with htm2 | rfl
      · rcases addTableName_mem _ _ _ htm2 with htm3 | rfl
        · exact relWitness_add a p t (ht t htm3)
        · rw [hg1]
          exact hw1
      · rw [hg2]
        exact hw2
    · intro e hem
      rw [hedg] at hem
      rcases updateEdges_endpoints _ _ _ _ _ _ hem with ⟨e0, he0, hsrc, hdst⟩ | ⟨hsrc, hdst⟩
      · have hvv := he e0 he0
        rw [hsrc, hdst]
        exact ⟨relWitness_add a p _ hvv.1, relWitness_add a p _ hvv.2⟩
      · rw [hsrc, hdst, hg1, hg2]
        exact ⟨hw1, hw2⟩
  · have htr2 : (optTruthy p.t1 && optTruthy p.t2) = false := by
      simpa using htr
    have hsame : (add_relationship a p.t1 p.c1 p.t2 p.c2).tables = a.tables ∧
        (add_relationship a p.t1 p.c1 p.t2 p.c2).edges = a.edges := by
      constructor <;> simp only [add_relationship, htr2, Bool.false_eq_true, if_false]
    constructor
    · intro t htm
      rw [hsame.1] at htm
      exact relWitness_add a p t (ht t htm)
    · intro e hem
      rw [hsame.2] at hem
      have hvv := he e hem
      exact ⟨relWitness_add a p _ hvv.1, relWitness_add a p _ hvv.2⟩

theorem goodTables_add_rel_list (ps : List RawRel) (a : Analyzer) (h : GoodTables a) :
    GoodTables (add_rel_list a ps) := by
  induction ps generalizing a with
  | nil => exact h
  | cons p ps ih =>
    have h1 := goodTables_add a p h
    simpa [add_rel_list] using ih _ h1

theorem mem_concatMap {x : β} {f : α → List β} {l : List α} :
    x ∈ concatMap f l ↔ ∃ a ∈ l, x ∈ f a := by
  induction l with
  | nil => simp [concatMap]
  | cons a l ih => simp [concatMap, ih, List.mem_append, or_and_right, exists_or]

/-! ## Claim theorems -/

/-- C1: extraction from a JOIN ON predicate equals the recursive boolean
decomposition: an `AND` contributes the union of its branches (realized as
first-seen deduplicated concatenation, matching the store's
insert-time dedup), an `EQ` between two column references contributes one
relationship precisely when both sides alias-resolve to two distinct
table names, and `OR`/`NOT` contribute nothing.  In particular
`JOIN b ON a.x = b.y AND a.z = b.w` yields exactly (a,x,b,y) and
(a,z,b,w), and `JOIN b ON a.x = b.y OR a.z = b.w` yields nothing. -/
theorem claim_C1_on_extraction :
    (∀ (a : Analyzer) (c : CondNode),
      (extract_equality_conditions a c).relationships =
        a.relationships ++
          dedupFrom a.relationships ((claimOnPairs a.aliasToTable c).map mkRaw)) ∧
    (analyze_sql (some andExampleStmt) emptyAnalyzer).1 =
      [mkRelationship (some "a") "x" (some "b") "y",
       mkRelationship (some "a") "z" (some "b") "w"] ∧
    (analyze_sql (some orExampleStmt) emptyAnalyzer).1 = [] := by
  refine ⟨fun a c => (extract_eq_emits c a).1, by decide, by decide⟩

/-- C2: when a statement has a join entry without an ON condition and more
than one resolvable FROM-side table, the WHERE phase contributes exactly
one relationship per equality node (found by flat search anywhere in the
WHERE tree) whose two sides are column references resolving to two
distinct tables, and nothing else.  `FROM a, b WHERE a.id = b.a_id` yields
exactly (a,id,b,a_id), also with an extra `AND a.status = 'x'`. -/
theorem claim_C2_where_correlation :
    (∀ (a : Analyzer) (stmt : SelectStmt) (w : CondNode),
      (stmt.joins.filter (fun j => j.onCond.isNone)).isEmpty = false →
      1 < (fromTablesOf a.aliasToTable stmt).length →
      stmt.whereCond = some w →
      (extract_from_where_relationships stmt a).relationships =
        a.relationships ++
          dedupFrom a.relationships ((claimWherePairs a.aliasToTable w).map mkRaw)) ∧
    (analyze_sql (some commaExampleStmt1) emptyAnalyzer).1 =
      [mkRelationship (some "a") "id" (some "b") "a_id"] ∧
    (analyze_sql (some commaExampleStmt2) emptyAnalyzer).1 =
      [mkRelationship (some "a") "id" (some "b") "a_id"] := by
  refine ⟨?_, by decide, by decide⟩
  intro a stmt w hcomma hlen hw
  have hjB : stmt.joins.isEmpty = false := by
    cases hjoins : stmt.joins with
    | nil => rw [hjoins] at hcomma; simp [List.filter_nil] at hcomma
    | cons j js => rfl
  have hcond : 1 < (fromTablesOf a.aliasToTable stmt).length ∧
      ¬ (stmt.joins.filter (fun j => j.onCond.isNone)).isEmpty = true := by
    exact ⟨hlen, by rw [hcomma]; simp⟩
  have hws : whereStagePairs a.aliasToTable stmt = claimWherePairs a.aliasToTable w := by
    unfold whereStagePairs
    rw [hjB]
    simp only [Bool.false_eq_true, if_false]
    rw [if_pos hcond, hw]
  have h := (extract_from_where_emits stmt a).1
  dsimp only at h
  rw [hws] at h
  exact h

/-- C2 witness: the general WHERE-correlation theorem applied to the
concrete `FROM a, b WHERE a.id = b.a_id AND a.status = 'x'` statement on a
fresh analyzer. -/
theorem claim_C2_where_correlation_witness :
    (extract_from_where_relationships commaExampleStmt2 emptyAnalyzer).relationships =
      emptyAnalyzer.relationships ++
        dedupFrom emptyAnalyzer.relationships
          ((claimWherePairs emptyAnalyzer.aliasToTable
              (.and (.eq (.col (some "a") "id") (.col (some "b") "a_id"))
                    (.eq (.col (some "a") "status") (.lit "x")))).map mkRaw) :=
  claim_C2_where_correlation.1 emptyAnalyzer commaExampleStmt2
    (.and (.eq (.col (some "a") "id") (.col (some "b") "a_id"))
          (.eq (.col (some "a") "status") (.lit "x")))
    (by decide) (by decide) rfl

/-- C8: the column type inferencer agrees with the spec's ordered
first-match rules, and maps the five example names as stated. -/
theorem claim_C8_infer_type :
    (∀ c : String, infer_column_type c = claimInferType c) ∧
    infer_column_type "user_id" = "INT FOREIGN KEY" ∧
    infer_column_type "id" = "INT PRIMARY KEY" ∧
    infer_column_type "created_at" = "DATETIME" ∧
    infer_column_type "is_active" = "BOOLEAN" ∧
    infer_column_type "description" = "VARCHAR(255)" := by
  refine ⟨?_, by decide, by decide, by decide, by decide, by decide⟩
  intro c
  unfold infer_column_type claimInferType
  by_cases h0 : c = "" ∨ c = "NATURAL"
  · simp [h0]
  · simp only [if_neg h0]
    by_cases hid : c = "id"
    · subst hid
      decide
    · by_cases hsid : strEndsWith c "_id" = true
      · simp [hid, hsid]
      · simp [hid, hsid]

/-- C9: single-statement analysis is deterministic and independent of the
instance state it runs on (the state is reset after a successful parse and
the persisted graph does not feed back into the relationship output), so
analyzing the same parsed statement twice — in particular in two
successive `analyze_sql` calls on the same instance — returns identical
relationship lists. -/
theorem claim_C9_idempotent :
    (∀ (q : Option SelectStmt) (a b : Analyzer),
      (analyze_sql q a).1 = (analyze_sql q b).1) ∧
    (∀ (q : Option SelectStmt) (a : Analyzer),
      (analyze_sql q ((analyze_sql q a).2)).1 = (analyze_sql q a).1) := by
  constructor
  · intro q a b
    rw [analyze_sql_fst_eq, analyze_sql_fst_eq]
  · intro q a
    rw [analyze_sql_fst_eq, analyze_sql_fst_eq]

/-- C3: `analyze_multiple_queries` analyzes each statement in input order
(each statement's output being independent of the carried instance state),
concatenates the per-statement lists, deduplicates by the 4-tuple
(table1, column1, table2, column2) keeping the first-seen record and the
first-seen order, and installs the result as the instance's relationship
state; no two returned entries share a 4-tuple. -/
theorem claim_C3_aggregate :
    ∀ (a : Analyzer) (queries : List (Option SelectStmt)),
      (analyze_multiple_queries a queries).1 =
        dedupBy4 (concatMap analyzeStmtRels queries) [] ∧
      ((analyze_multiple_queries a queries).1).Pairwise (fun r s => key4 r ≠ key4 s) ∧
      ((analyze_multiple_queries a queries).1).Sublist (concatMap analyzeStmtRels queries) ∧
      (∀ r ∈ (analyze_multiple_queries a queries).1,
        (concatMap analyzeStmtRels queries).find? (fun x => decide (key4 x = key4 r)) =
          some r) ∧
      (∀ r ∈ concatMap analyzeStmtRels queries,
        ∃ s ∈ (analyze_multiple_queries a queries).1, key4 s = key4 r) ∧
      (analyze_multiple_queries a queries).2.relationships =
        (analyze_multiple_queries a queries).1 := by
  intro a queries
  have hall : (analyze_multiple_queries a queries).1 =
      dedupBy4 (concatMap analyzeStmtRels queries) [] := by
    have hfold := foldl_analyze_fst queries [] a
    simp only [analyze_multiple_queries]
    rw [hfold]
    simp
  refine ⟨hall, ?_, ?_, ?_, ?_, ?_⟩
  · rw [hall]
    exact dedupBy4_pairwise _ _
  · rw [hall]
    exact dedupBy4_sublist _ _
  · rw [hall]
    exact dedupBy4_find_first _ _
  · intro r hr
    rcases dedupBy4_key_covered (concatMap analyzeStmtRels queries) [] r hr with hs | ⟨s, hs, hk⟩
    · cases hs
    · exact ⟨s, by rw [hall]; exact hs, hk⟩
  · rfl

/-- C3 witness: a concrete three-statement batch (with a repeated
statement), and the first-seen record kept for a concrete key. -/
theorem claim_C3_aggregate_witness :
    (analyze_multiple_queries emptyAnalyzer
        [some andExampleStmt, some commaExampleStmt1, some andExampleStmt]).1 =
      dedupBy4
        (concatMap analyzeStmtRels
          [some andExampleStmt, some commaExampleStmt1, some andExampleStmt]) [] ∧
    (concatMap analyzeStmtRels
        [some andExampleStmt, some commaExampleStmt1, some andExampleStmt]).find?
        (fun x => decide (key4 x = key4 (mkRelationship (some "a") "x" (some "b") "y"))) =
      some (mkRelationship (some "a") "x" (some "b") "y") := by
  have h := claim_C3_aggregate emptyAnalyzer
    [some andExampleStmt, some commaExampleStmt1, some andExampleStmt]
  exact ⟨h.1, h.2.2.2.1 (mkRelationship (some "a") "x" (some "b") "y") (by decide)⟩

/-- C4 counterexample: after a successful call that stored one
relationship, a call on an unparseable statement returns `[]` but the
instance still holds the previous call's relationship — the per-instance
state is not cleared, because the reset sits after the parse inside the
`try` block. -/
theorem claim_C4_counterexample :
    (analyze_sql none ((analyze_sql (some commaExampleStmt1) emptyAnalyzer).2)).1 = [] ∧
    (analyze_sql none
        ((analyze_sql (some commaExampleStmt1) emptyAnalyzer).2)).2.relationships =
      [mkRelationship (some "a") "id" (some "b") "a_id"] := by
  exact ⟨rfl, by decide⟩

/-- C4 (amended): `analyze_sql` clears the per-instance state only after a
successful parse (a call on a parsed statement behaves exactly as on a
freshly reset instance), and a parse failure returns an empty list without
raising while leaving the instance state — including relationships left
over from a previous call — untouched. -/
theorem claim_C4_amended :
    (∀ a : Analyzer, analyze_sql none a = ([], a)) ∧
    (∀ (a : Analyzer) (stmt : SelectStmt),
      analyze_sql (some stmt) a = analyze_sql (some stmt) (resetAnalyzer a)) := by
  exact ⟨fun a => rfl, fun a stmt => rfl⟩

/-- C5 counterexample: an edge accumulates `"a -> b; x -> y"`; re-adding
the already-contained label `"x -> y"` does not leave the label unchanged
— it resets it to `"x -> y"`, discarding the accumulation (the `else`
branch of the substring check overwrites instead of keeping). -/
theorem claim_C5_counterexample :
    edgeColumns
        (add_relationship (add_relationship emptyAnalyzer (some "t") "a" (some "u") "b")
          (some "t") "x" (some "u") "y") "t" "u" = some "a -> b; x -> y" ∧
    strOccursIn (edgeLabel "x" "y") "a -> b; x -> y" = true ∧
    edgeColumns
        (add_relationship
          (add_relationship (add_relationship emptyAnalyzer (some "t") "a" (some "u") "b")
            (some "t") "x" (some "u") "y")
          (some "t") "x" (some "u") "y") "t" "u" = some "x -> y" ∧
    ("x -> y" : String) ≠ "a -> b; x -> y" := by
  refine ⟨by decide, by decide, by decide, by decide⟩

/-- C5 (amended): when the `(table1, table2)` edge exists and its label
already contains the new `"col1 -> col2"` label as a substring, the label
is overwritten with exactly the new label (not left unchanged); a label
not yet contained is appended with `"; "`; consequently adding the same
relationship twice onto a previously absent edge leaves the label equal to
the single column-pair label. -/
theorem claim_C5_amended :
    (∀ (a : Analyzer) (t1 c1 t2 c2 L : String), t1 ≠ "" → t2 ≠ "" →
      edgeColumns a t1 t2 = some L → strOccursIn (edgeLabel c1 c2) L = true →
      edgeColumns (add_relationship a (some t1) c1 (some t2) c2) t1 t2 =
        some (edgeLabel c1 c2)) ∧
    (∀ (a : Analyzer) (t1 c1 t2 c2 L : String), t1 ≠ "" → t2 ≠ "" →
      edgeColumns a t1 t2 = some L → L ≠ "" → strOccursIn (edgeLabel c1 c2) L = false →
      edgeColumns (add_relationship a (some t1) c1 (some t2) c2) t1 t2 =
        some (L ++ "; " ++ edgeLabel c1 c2)) ∧
    (∀ (a : Analyzer) (t1 c1 t2 c2 : String), t1 ≠ "" → t2 ≠ "" →
      edgeColumns a t1 t2 = none →
      edgeColumns
          (add_relationship (add_relationship a (some t1) c1 (some t2) c2)
            (some t1) c1 (some t2) c2) t1 t2 = some (edgeLabel c1 c2)) := by
  refine ⟨?_, ?_, ?_⟩
  · intro a t1 c1 t2 c2 L h1 h2 hL hocc
    rw [edgeColumns_add_relationship a t1 c1 t2 c2 h1 h2, hL]
    simp [combineLabel_of_contained L (edgeLabel c1 c2) hocc]
  · intro a t1 c1 t2 c2 L h1 h2 hL hne hocc
    rw [edgeColumns_add_relationship a t1 c1 t2 c2 h1 h2, hL]
    simp [combineLabel_of_not_contained L (edgeLabel c1 c2) hne hocc]
  · intro a t1 c1 t2 c2 h1 h2 hnone
    have e1 : edgeColumns (add_relationship a (some t1) c1 (some t2) c2) t1 t2 =
        some (edgeLabel c1 c2) := by
      rw [edgeColumns_add_relationship a t1 c1 t2 c2 h1 h2, hnone]
    rw [edgeColumns_add_relationship _ t1 c1 t2 c2 h1 h2, e1]
    simp [combineLabel_of_contained _ _ (strOccursIn_refl (edgeLabel c1 c2))]

/-- C5 witness: the amended behavior at concrete stores — double-add on a
fresh edge keeps the single label, a new label is appended with `"; "`,
and a contained label overwrites. -/
theorem claim_C5_amended_witness :
    edgeColumns
        (add_relationship (add_relationship emptyAnalyzer (some "t") "x" (some "u") "y")
          (some "t") "x" (some "u") "y") "t" "u" = some (edgeLabel "x" "y") ∧
    edgeColumns
        (add_relationship (add_relationship emptyAnalyzer (some "t") "a" (some "u") "b")
          (some "t") "x" (some "u") "y") "t" "u" =
      some ("a -> b" ++ "; " ++ edgeLabel "x" "y") ∧
    edgeColumns
        (add_relationship
          (add_relationship (add_relationship emptyAnalyzer (some "t") "a" (some "u") "b")
            (some "t") "x" (some "u") "y")
          (some "t") "x" (some "u") "y") "t" "u" = some (edgeLabel "x" "y") := by
  refine ⟨?_, ?_, ?_⟩
  · exact claim_C5_amended.2.2 emptyAnalyzer "t" "x" "u" "y"
      (by decide) (by decide) (by decide)
  · exact claim_C5_amended.2.1
      (add_relationship emptyAnalyzer (some "t") "a" (some "u") "b") "t" "x" "u" "y" "a -> b"
      (by decide) (by decide) (by decide) (by decide) (by decide)
  · exact claim_C5_amended.1
      (add_relationship (add_relationship emptyAnalyzer (some "t") "a" (some "u") "b")
        (some "t") "x" (some "u") "y") "t" "x" "u" "y" "a -> b; x -> y"
      (by decide) (by decide) (by decide) (by decide)

/-- C6: a statement whose single join carries a USING clause (and no WHERE
clause) yields, per column named in the USING list, exactly one
relationship with the same column name on both sides, `table2` the joined
table and `table1` the FROM-clause table or the `"LEFT_TABLE"`
placeholder; `JOIN d USING (dept_id)` yields one relationship with
`column1 = column2 = "dept_id"`. -/
theorem claim_C6_using :
    (∀ (stmt : SelectStmt) (j : JoinClause) (cols : List String),
      stmt.joins = [j] → j.onCond = none → j.usingCols = some cols →
      cols.isEmpty = false → stmt.whereCond = none →
      (analyze_sql (some stmt) emptyAnalyzer).1 =
        dedupFrom []
          ((claimUsingPairs cols
              (get_table_name (build_alias_map stmt []) (some j.table))
              (get_table_name (build_alias_map stmt []) stmt.fromTable)).map mkRaw)) ∧
    (analyze_sql (some usingExampleStmt) emptyAnalyzer).1 =
      [mkRelationship (some "e") "dept_id" (some "d") "dept_id"] := by
  refine ⟨?_, by decide⟩
  intro stmt j cols hjs hon huse hne hwc
  rw [analyze_sql_some_fst]
  have hjp : joinStagePairs (build_alias_map stmt []) stmt =
      claimUsingPairs cols (get_table_name (build_alias_map stmt []) (some j.table))
        (get_table_name (build_alias_map stmt []) stmt.fromTable) ++
      claimUsingPairs cols (get_table_name (build_alias_map stmt []) (some j.table))
        (get_table_name (build_alias_map stmt []) stmt.fromTable) := by
    unfold joinStagePairs
    rw [hjs]
    simp [concatMap, joinPairs, hon, huse, hne]
  have hwp : whereStagePairs (build_alias_map stmt []) stmt = [] := by
    unfold whereStagePairs
    rw [hwc]
    split
    · rfl
    · split <;> rfl
  simp only [stmtPairs]
  rw [hjp, hwp, List.append_nil, List.map_append, dedupFrom_self_append]

/-- C6 witness: the general USING theorem applied to the concrete
`FROM e JOIN d USING (dept_id)` statement. -/
theorem claim_C6_using_witness :
    (analyze_sql (some usingExampleStmt) emptyAnalyzer).1 =
      dedupFrom []
        ((claimUsingPairs ["dept_id"]
            (get_table_name (build_alias_map usingExampleStmt [])
              (some { name := some "d", aliasName := none }))
            (get_table_name (build_alias_map usingExampleStmt [])
              usingExampleStmt.fromTable)).map mkRaw) :=
  claim_C6_using.1 usingExampleStmt
    { table := { name := some "d", aliasName := none }
      onCond := none, usingCols := some ["dept_id"], kind := none }
    ["dept_id"] rfl rfl rfl rfl rfl

/-- C7: a statement whose single join is marked NATURAL (and has no WHERE
clause) yields exactly one synthetic placeholder relationship
`(null, "NATURAL", <joined table>, "NATURAL")`; in particular
`FROM e NATURAL JOIN d` yields exactly `(null, "NATURAL", "d", "NATURAL")`. -/
theorem claim_C7_natural :
    (∀ (stmt : SelectStmt) (j : JoinClause),
      stmt.joins = [j] → j.onCond = none → j.usingCols = none →
      j.kind = some "NATURAL" → stmt.whereCond = none →
      (analyze_sql (some stmt) emptyAnalyzer).1 =
        [mkRelationship none "NATURAL"
          (get_table_name (build_alias_map stmt []) (some j.table)) "NATURAL"]) ∧
    (analyze_sql (some naturalExampleStmt) emptyAnalyzer).1 =
      [mkRelationship none "NATURAL" (some "d") "NATURAL"] := by
  refine ⟨?_, by decide⟩
  intro stmt j hjs hon huse hk hwc
  rw [analyze_sql_some_fst]
  have hjp : joinStagePairs (build_alias_map stmt []) stmt =
      [(⟨none, "NATURAL", get_table_name (build_alias_map stmt []) (some j.table),
         "NATURAL"⟩ : RawRel)] ++
      [(⟨none, "NATURAL", get_table_name (build_alias_map stmt []) (some j.table),
         "NATURAL"⟩ : RawRel)] := by
    unfold joinStagePairs
    rw [hjs]
    simp [concatMap, joinPairs, hon, huse, hk]
  have hwp : whereStagePairs (build_alias_map stmt []) stmt = [] := by
    unfold whereStagePairs
    rw [hwc]
    split
    · rfl
    · split <;> rfl
  simp only [stmtPairs]
  rw [hjp, hwp, List.append_nil, List.map_append, dedupFrom_self_append]
  simp [dedupFrom, mkRaw]

/-- C7 witness: the general NATURAL theorem applied to the concrete
`FROM e NATURAL JOIN d` statement. -/
theorem claim_C7_natural_witness :
    (analyze_sql (some naturalExampleStmt) emptyAnalyzer).1 =
      [mkRelationship none "NATURAL"
        (get_table_name (build_alias_map naturalExampleStmt [])
          (some { name := some "d", aliasName := none })) "NATURAL"] :=
  claim_C7_natural.1 naturalExampleStmt
    { table := { name := some "d", aliasName := none }
      onCond := none, usingCols := none, kind := some "NATURAL" }
    rfl rfl rfl rfl rfl

/-- C10: `_add_relationship` updates the table set and the graph only when
both table names are truthy — a relationship with a null (or empty) side
is still appended to the relationship list but creates no node or edge —
and after any sequence of additions to a fresh store, every stored table
name and every graph node occurs on a side of some stored relationship
whose two table names are both resolved. -/
theorem claim_C10_graph_only_resolved :
    (∀ (a : Analyzer) (t1 : Option String) (c1 : String) (t2 : Option String) (c2 : String),
      (optTruthy t1 && optTruthy t2) = false →
      (add_relationship a t1 c1 t2 c2).tables = a.tables ∧
      (add_relationship a t1 c1 t2 c2).edges = a.edges ∧
      (add_relationship a t1 c1 t2 c2).relationships =
        (if mkRelationship t1 c1 t2 c2 ∈ a.relationships then a.relationships
         else a.relationships ++ [mkRelationship t1 c1 t2 c2])) ∧
    (∀ (ps : List RawRel) (t : String),
      t ∈ (add_rel_list emptyAnalyzer ps).tables ∨
        t ∈ nodeNames (add_rel_list emptyAnalyzer ps) →
      ∃ r ∈ (add_rel_list emptyAnalyzer ps).relationships,
        optTruthy r.table1 = true ∧ optTruthy r.table2 = true ∧
        (r.table1 = some t ∨ r.table2 = some t)) := by
  constructor
  · intro a t1 c1 t2 c2 hf
    refine ⟨?_, ?_, add_relationship_relationships a t1 c1 t2 c2⟩ <;>
      simp only [add_relationship, hf, Bool.false_eq_true, if_false]
  · intro ps t hmem
    have hempty : GoodTables emptyAnalyzer := by
      refine ⟨?_, ?_⟩
      · intro t h
        simp [emptyAnalyzer] at h
      · intro e h
        simp [emptyAnalyzer] at h
    have hg := goodTables_add_rel_list ps emptyAnalyzer hempty
    rcases hmem with hmem | hmem
    · exact hg.1 t hmem
    · rw [nodeNames] at hmem
      rcases mem_concatMap.mp hmem with ⟨e, he, ht⟩
      have hw := hg.2 e he
      rcases List.mem_cons.mp ht with rfl | ht2
      · exact hw.1
      · have : t = e.dst := by simpa using ht2
        rw [this]
        exact hw.2

/-- C10 witness: a NATURAL placeholder add leaves tables and graph
untouched, and a concrete resolved add yields a stored witness for its
table names. -/
theorem claim_C10_graph_only_resolved_witness :
    (add_relationship emptyAnalyzer none "NATURAL" (some "d") "NATURAL").tables =
      emptyAnalyzer.tables ∧
    (∃ r ∈ (add_rel_list emptyAnalyzer [⟨some "t", "x", some "u", "y"⟩]).relationships,
      optTruthy r.table1 = true ∧ optTruthy r.table2 = true ∧
      (r.table1 = some "t" ∨ r.table2 = some "t")) := by
  constructor
  · exact (claim_C10_graph_only_resolved.1 emptyAnalyzer none "NATURAL" (some "d") "NATURAL"
      (by decide)).1
  · exact claim_C10_graph_only_resolved.2 [⟨some "t", "x", some "u", "y"⟩] "t"
      (Or.inl (by decide))
